import Mathlib

/-
Verification of the hdfs-shred coordinator (src/shred.py) against its
natural-language specification.

The source is a single Python file.  Pure computations (the fsck parser,
path construction, JSON serialisation of worklists) are embedded as Lean
functions over `List Char` / `String`.  Effectful code (HDFS writes,
ZooKeeper lease attempts, subprocess calls, hardlink creation) is embedded
as functions that return the list of externally visible events they would
perform, with the external world (HDFS read results, `find` output, mount
table, lease grants) supplied as explicit function arguments.  Fallible
Python code (uncaught exceptions) is embedded with `Except`.
-/

namespace HdfsShred

/-- Python exception kinds raised by the embedded code paths. -/
inductive PyErr where
  | attributeError
  | indexError
  | hdfsError
  | renameError
  deriving DecidableEq, Repr

/-- Externally visible effects performed by the agents. -/
inductive Event where
  | hdfsWrite (path content : String)
  | hdfsMakedirs (path : String)
  | hdfsRename (src dst : String)
  | hdfsDelete (path : String) (skipTrash : Bool)
  | leaseAttempt (path : String)
  | findCmd (root name : String)
  | makedirs (path : String)
  | link (src dst : String)
  | shredCmd (path : String)
  deriving DecidableEq, Repr

/-- Relevant fields of the external configuration module `config.conf`. -/
structure Conf where
  HDFS_SHRED_PATH : String
  LINUXFS_SHRED_PATH : String
  ZOOKEEPER_PATH : String
  deriving DecidableEq, Repr

/-- Embedding of `os.path.join` for the relative second components used in
the source (no component passed to it starts with a slash). -/
def ospathjoin (a b : String) : String := a ++ "/" ++ b

/-- Path of the master status file, `{root}/jobs/{job_id}` (shred.py line 146). -/
def masterStatusPath (conf : Conf) (job_id : String) : String :=
  ospathjoin (ospathjoin conf.HDFS_SHRED_PATH "jobs") job_id

/-- Path of the data status file, `{root}/store/{job_id}/status` (line 148). -/
def dataStatusPath (conf : Conf) (job_id : String) : String :=
  ospathjoin (ospathjoin (ospathjoin conf.HDFS_SHRED_PATH "store") job_id) "status"

/-- Path of a per-component status file, `{root}/store/{job_id}/{C}/status` (line 151). -/
def componentStatusPath (conf : Conf) (job_id component : String) : String :=
  ospathjoin (ospathjoin (ospathjoin (ospathjoin conf.HDFS_SHRED_PATH "store") job_id) component) "status"

/-- Path of the per-worker worklist file, `{root}/store/{job_id}/{worker_id}`
(shred.py lines 328 and 445). -/
def worklistPath (conf : Conf) (job_id worker_id : String) : String :=
  ospathjoin (ospathjoin (ospathjoin conf.HDFS_SHRED_PATH "store") job_id) worker_id

/-- Path of the ingested payload directory, `{root}/store/{job_id}/data` (line 184). -/
def dataDirPath (conf : Conf) (job_id : String) : String :=
  ospathjoin (ospathjoin (ospathjoin conf.HDFS_SHRED_PATH "store") job_id) "data"

/-- Embedding of `set_status` (shred.py lines 141-156): resolves the status
file path from the component name and overwrites it with the status token. -/
def set_status (conf : Conf) (job_id component status : String) : Event :=
  if component = "master" then
    Event.hdfsWrite (masterStatusPath conf job_id) status
  else if component = "data" then
    Event.hdfsWrite (dataStatusPath conf job_id) status
  else
    Event.hdfsWrite (componentStatusPath conf job_id component) status

/-- Association-list lookup with decidable equality (first binding wins),
modelling Python dict lookup for our insertion-ordered embedding of dicts. -/
def lookupA {α β : Type} [DecidableEq α] (k : α) : List (α × β) → Option β
  | [] => none
  | kv :: rest => if kv.1 = k then some kv.2 else lookupA k rest

/-- Embedding of `json.dumps` on a string-to-string dict as used for
worklists: `{"k": "v", ...}` with Python's default separators. -/
def jsonDumps (m : List (String × String)) : String :=
  "\x7b" ++ String.intercalate ", " (m.map fun kv => "\"" ++ kv.1 ++ "\": \"" ++ kv.2 ++ "\"") ++ "\x7d"

/-! ### The fsck block-report parser (`parse_blocks_from_fsck`, lines 259-282) -/

/-- Whether a line begins with a (ASCII) digit, `current_line[0].isdigit()`
(line 270); fsck output lines are nonempty ASCII so `Char.isDigit` agrees
with Python's `str.isdigit` on the first character. -/
def digitLeading : List Char → Bool
  | [] => false
  | c :: _ => c.isDigit

/-- Embedding of `current_line.split("[", 1)` (line 271): the part before the
first `[`, and the part after it when a `[` exists. -/
def splitFirstBracket : List Char → List Char × Option (List Char)
  | [] => ([], none)
  | c :: rest =>
    if c = '[' then ([], some rest)
    else
      let p := splitFirstBracket rest
      (c :: p.1, p.2)

/-- Chars of `l` strictly before its first space; `none` when there is no
space or a newline comes first (`.` in the regex does not match newlines). -/
def spanToSpace : List Char → Option (List Char)
  | [] => none
  | c :: rest =>
    if c = ' ' then some []
    else if c = '\n' then none
    else (spanToSpace rest).map (c :: ·)

/-- The capture of the lazy group in `re.search(':(.+?) ', s)` once a `:` has
been consumed: at least one captured character, terminated by the first space
at offset at least two after the colon. -/
def captureToSpace : List Char → Option (List Char)
  | [] => none
  | c :: rest =>
    if c = '\n' then none
    else (spanToSpace rest).map (c :: ·)

/-- Embedding of `re.search(':(.+?) ', s).group(1)` (line 272): leftmost
match, i.e. the first colon from which a (lazy, newline-free, nonempty)
capture terminated by a space succeeds. -/
def searchColonCapture : List Char → Option (List Char)
  | [] => none
  | c :: rest =>
    if c = ':' then
      match captureToSpace rest with
      | some cap => some cap
      | none => searchColonCapture rest
    else searchColonCapture rest

/-- Embedding of `s.rpartition("_")[0]` (line 272): the part of `s` before its
last underscore, or the empty list when `s` has no underscore. -/
def rpartitionHead (sep : Char) (s : List Char) : List Char :=
  if s.contains sep then
    match s.reverse.dropWhile (· ≠ sep) with
    | [] => []
    | _ :: tl => tl.reverse
  else []

/-- Chars of `l` before its first `]` together with the rest after the `]`;
`none` when there is no `]` or a newline comes first. -/
def spanToClose : List Char → Option (List Char × List Char)
  | [] => none
  | c :: rest =>
    if c = ']' then some ([], rest)
    else if c = '\n' then none
    else (spanToClose rest).map (fun p => (c :: p.1, p.2))

/-- The literal `DatanodeInfoWithStorage[` of the findall pattern (line 273). -/
def dnisLit : List Char := "DatanodeInfoWithStorage[".data

/-- Scanner loop for the findall: every recursive call both consumes fuel
and strictly shortens the scanned list (`spanToClose` only returns a suffix
of what follows the consumed literal), so with fuel equal to the initial
length the fuel never runs out before the list does; the fuel only makes
the recursion structural. -/
def findallDNISAux (fuel : Nat) (s : List Char) : List (List Char) :=
  match fuel, s with
  | 0, _ => []
  | _ + 1, [] => []
  | fuel + 1, c :: rest =>
    if dnisLit.isPrefixOf (c :: rest) then
      match spanToClose ((c :: rest).drop dnisLit.length) with
      | some (cap, rest') => cap :: findallDNISAux fuel rest'
      | none => findallDNISAux fuel rest
    else findallDNISAux fuel rest

/-- Embedding of `re.findall("DatanodeInfoWithStorage\\[(.*?)\\]", s)`
(line 273): non-overlapping left-to-right matches, each capture lazily
extending to the first `]`. -/
def findallDNIS (s : List Char) : List (List Char) :=
  findallDNISAux s.length s

/-- Embedding of `block.split(":", 1)[0]` (line 275): everything before the
first colon (the whole string when there is no colon). -/
def takeBeforeColon (l : List Char) : List Char := l.takeWhile (· ≠ ':')

/-- Append `v` to the list bound to `k`, inserting the key at the end when it
is absent: the effect of `output[k].append(v)` after `output[k] = []` when
`k not in output` (lines 276-278), for an insertion-ordered dict embedding. -/
def alistAppend (m : List (List Char × List (List Char))) (k v : List Char) :
    List (List Char × List (List Char)) :=
  match m with
  | [] => [(k, [v])]
  | kv :: rest =>
    if kv.1 = k then (kv.1, kv.2 ++ [v]) :: rest
    else kv :: alistAppend rest k v

/-- Worker loop of `parse_blocks_from_fsck` (lines 266-279) over the line
iterator, carrying the `output` dict.  A line whose first character is a
digit is processed: `split("[", 1)`, then the colon capture on part `[0]`
(an unmatched search raises `AttributeError` via `.group(1)`), then
`output_split[1]` (raising `IndexError` when the line has no `[`), then one
append per `DatanodeInfoWithStorage[...]` entry.  Other lines are skipped. -/
def parseFsckAux (acc : List (List Char × List (List Char))) :
    List (List Char) → Except PyErr (List (List Char × List (List Char)))
  | [] => Except.ok acc
  | l :: rest =>
    match l with
    | [] => Except.error PyErr.indexError
    | c :: _ =>
      if c.isDigit then
        let p := splitFirstBracket l
        match searchColonCapture p.1 with
        | none => Except.error PyErr.attributeError
        | some cap =>
          match p.2 with
          | none => Except.error PyErr.indexError
          | some after =>
            let bid := rpartitionHead '_' cap
            let dns := (findallDNIS after).map takeBeforeColon
            parseFsckAux (dns.foldl (fun a dn => alistAppend a dn bid) acc) rest
      else parseFsckAux acc rest

/-- Embedding of `parse_blocks_from_fsck` (shred.py lines 259-282): takes the
fsck output lines and returns the dict from datanode IP to the list of block
ids (generation suffix stripped) of its replicas. -/
def parse_blocks_from_fsck (lines : List (List Char)) :
    Except PyErr (List (List Char × List (List Char))) :=
  parseFsckAux [] lines

/-! ### Specification-side description of the parser (claim C10 wording) -/

/-- Follows the spec wording for one report line: a line beginning with a
digit contributes one `(replica datanode IP, block id)` pair per
`DatanodeInfoWithStorage[...]` entry, where the block id is the text captured
after `:` up to the following space with the part after the final `_`
removed, and the IP is the entry text before its first `:`; any other line
contributes nothing. -/
def lineContribution (l : List Char) : List (List Char × List Char) :=
  if digitLeading l then
    match searchColonCapture (splitFirstBracket l).1, (splitFirstBracket l).2 with
    | some cap, some after =>
      ((findallDNIS after).map takeBeforeColon).map
        (fun dn => (dn, rpartitionHead '_' cap))
    | _, _ => []
  else []

/-- Follows the spec wording for the whole report: group the per-line
contributions, in report order, into a datanode-to-block-ids mapping. -/
def blockReport_spec (lines : List (List Char)) :
    List (List Char × List (List Char)) :=
  lines.foldl
    (fun acc l => (lineContribution l).foldl (fun a p => alistAppend a p.1 p.2) acc) []

/-- A well-formed oracle report line: nonempty, and when it begins with a
digit it contains a `[`, its part before the first `[` has a colon capture,
and the capture contains an underscore (fsck block ids are `blk_<id>_<gen>`). -/
def lineWF (l : List Char) : Bool :=
  match l with
  | [] => false
  | c :: _ =>
    if c.isDigit then
      match searchColonCapture (splitFirstBracket l).1, (splitFirstBracket l).2 with
      | some cap, some _ => cap.contains '_'
      | _, _ => false
    else true

/-! ### Block-discovery leader pass (`prepare_blocklists`, lines 285-339) -/

/-- Embedding of Python `dict.update` on the insertion-ordered association
lists used for blocklists (line 315): values of keys present in `nw` replace
the old values in place, keys new to the dict are appended. -/
def dictUpdate (old nw : List (List Char × List (List Char))) :
    List (List Char × List (List Char)) :=
  old.map (fun kv => (kv.1, ((lookupA kv.1 nw).getD kv.2))) ++
    nw.filter (fun kv => (lookupA kv.1 old).isNone)

/-- Embedding of the blocklist aggregation loop (lines 311-315): start from
an empty dict and `update` it with the parsed fsck report of each target in
turn.  A parse error propagates as the uncaught Python exception would. -/
def build_blocklists (targets : List String)
    (report : String → List (List Char)) :
    Except PyErr (List (List Char × List (List Char))) :=
  targets.foldlM
    (fun acc t => do
      let m ← parse_blocks_from_fsck (report t)
      pure (dictUpdate acc m))
    ([] : List (List Char × List (List Char)))

/-- Embedding of `prepare_blocklists` (shred.py lines 285-339).  The
ZooKeeper `NonBlockingLease` constructor is modelled as a `leaseAttempt`
event whose outcome `leaseGranted` is supplied by the environment; on
failure the function returns `"pipped"` having written nothing, on success
it writes `master=stage2prepareBlocklist`, one worklist file per datanode
key of the aggregated blocklists (every block mapped to `"new"`), and
finally `master=stage2copyblocks`, returning `"success"`. -/
def prepare_blocklists (conf : Conf) (job_id : String) (leaseGranted : Bool)
    (targets : List String) (report : String → List (List Char)) :
    Except PyErr (String × List Event) :=
  let leaseEv := Event.leaseAttempt (conf.ZOOKEEPER_PATH ++ job_id)
  if !leaseGranted then Except.ok ("pipped", [leaseEv])
  else do
    let bl ← build_blocklists targets report
    let wlEvents := bl.map (fun wkv =>
      Event.hdfsWrite (worklistPath conf job_id (String.mk wkv.1))
        (jsonDumps (wkv.2.map (fun b => (String.mk b, "new")))))
    pure ("success",
      leaseEv ::
      set_status conf job_id "master" "stage2prepareBlocklist" ::
      wlEvents ++
      [set_status conf job_id "master" "stage2copyblocks"])

/-- Embedding of the stage-1 leader section of `worker_workflow` (shred.py
lines 414-433): for each job with master status `stage1complete`, the worker
calls `prepare_blocklists` only when `zk.exists` on the lease path is truthy
(line 424); otherwise the job is passed over without any action.  The
results `"success"` and `"pipped"` are both accepted (lines 426-433). -/
def worker_stage1_pass (conf : Conf) (stage1jobs : List String)
    (zkNodeExists : String → Bool) (leaseGranted : String → Bool)
    (targets : String → List String)
    (report : String → String → List (List Char)) :
    Except PyErr (List Event) :=
  stage1jobs.foldlM
    (fun evs job_id =>
      if zkNodeExists (conf.ZOOKEEPER_PATH ++ job_id) then do
        let r ← prepare_blocklists conf job_id (leaseGranted job_id)
          (targets job_id) (report job_id)
        pure (evs ++ r.2)
      else pure evs)
    ([] : List Event)

/-- The per-node block list that survives the `dict.update` aggregation:
the parse result of the last target whose report lists the node.  Used to
state the corrected form of claim C4. -/
def lastNodeReport (parsed : String → List (List Char × List (List Char)))
    (targets : List String) (w : List Char) : Option (List (List Char)) :=
  targets.foldl
    (fun acc t =>
      match lookupA w (parsed t) with
      | some v => some v
      | none => acc)
    none

/-- The blocklist dict produced by folding every target's parsed report
through `dict.update`, which is what lines 311-315 compute when every parse
succeeds. -/
def aggregateBlocklists (parsed : String → List (List Char × List (List Char)))
    (targets : List String) : List (List Char × List (List Char)) :=
  targets.foldl (fun a t => dictUpdate a (parsed t)) []

/-! ### Per-worker preserve pass (`worker_workflow` lines 438-503) -/

/-- Walk-up loop of `find_mount_point`: each step drops the last path
component, so with fuel equal to the component count the fuel never runs
out before the root (always a mount point) is reached; the fuel only makes
the recursion structural. -/
def findMountPointAux (isMount : List String → Bool) :
    Nat → List String → List String
  | 0, _ => []
  | _ + 1, [] => []
  | fuel + 1, c :: rest =>
    if isMount (c :: rest) then c :: rest
    else findMountPointAux isMount fuel (c :: rest).dropLast

/-- Embedding of `find_mount_point` (lines 343-348) over paths represented
as component lists (realpath resolution is abstracted away; the filesystem
root `[]` is always a mount point, as `/` is for `os.path.ismount`). -/
def find_mount_point (isMount : List String → Bool) (p : List String) :
    List String :=
  findMountPointAux isMount p.length p

/-- Render a component-list path as the absolute path string the source
manipulates. -/
def renderPath (cs : List String) : String := "/" ++ String.intercalate "/" cs

/-- Embedding of the per-block body of the preserve pass (shred.py lines
464-495).  A `"new"` block is marked `"finding"` and searched for with
`find / -name <block>`; exactly one hit hardlinks the block file into the
`{mount}/{LINUXFS_SHRED_PATH}` directory (created if absent) and the block
ends `"linked"`, any other hit count logs an error and leaves it
`"finding"`.  A `"linked"` block is a logged no-op.  Any other state
(including `"finding"`) matches no branch of the `if`/`elif` chain and is
returned unchanged with no effects. -/
def process_block (conf : Conf) (blk : String) (st : String)
    (found : List (List String)) (isMount : List String → Bool)
    (dirExists : String → Bool) : String × List Event :=
  if st = "new" then
    let findEv := Event.findCmd "/" blk
    if found.length = 1 then
      let f := found.headD []
      let mount := find_mount_point isMount f
      let shredDir := ospathjoin (renderPath mount) conf.LINUXFS_SHRED_PATH
      let mkEvs := if dirExists shredDir then [] else [Event.makedirs shredDir]
      ("linked", findEv :: mkEvs ++ [Event.link (renderPath f) (ospathjoin shredDir blk)])
    else ("finding", [findEv])
  else if st = "linked" then (st, [])
  else (st, [])

/-- Embedding of the per-job block loop (lines 462-495): each worklist entry
is processed independently and its state replaced by the result. -/
def process_job_blocks (conf : Conf) (wl : List (String × String))
    (findRes : String → List (List String)) (isMount : List String → Bool)
    (dirExists : String → Bool) : List (String × String) × List Event :=
  match wl with
  | [] => ([], [])
  | bs :: rest =>
    let p := process_block conf bs.1 bs.2 (findRes bs.1) isMount dirExists
    let q := process_job_blocks conf rest findRes isMount dirExists
    ((bs.1, p.1) :: q.1, p.2 ++ q.2)

/-- Embedding of the stage-2 section of `worker_workflow` (shred.py lines
438-503).  For each job with master status `stage2copyblocks` the worker
reads `{root}/store/{job}/{self_id}`; `this_job_blocklist` is initialised to
the empty dict and a read failure (`HdfsError`) leaves it empty, so the
`is not None` test on line 457 admits every job into `tasklist`.  Each
admitted job has its blocks processed and its worklist file overwritten with
the updated dict (lines 496-499). -/
def worker_stage2_pass (conf : Conf) (worker_id : String)
    (jobs : List String)
    (readWorklist : String → Option (List (String × String)))
    (findRes : String → List (List String)) (isMount : List String → Bool)
    (dirExists : String → Bool) : List Event :=
  let tasklist := jobs.map (fun j => (j, (readWorklist j).getD []))
  if tasklist.length > 0 then
    tasklist.foldl
      (fun evs jt =>
        let p := process_job_blocks conf jt.2 findRes isMount dirExists
        evs ++ p.2 ++
          [Event.hdfsWrite (worklistPath conf jt.1 worker_id) (jsonDumps p.1)])
      []
  else []

/-- Declarative per-block state transition of the preserve pass, used to
state the corrected form of claim C5: only `"new"` moves, to `"linked"` on a
unique filesystem hit and to `"finding"` otherwise. -/
def blockNextState (st : String) (hits : Nat) : String :=
  if st = "new" then (if hits = 1 then "linked" else "finding") else st

/-! ### Client ingest pipeline (`init_new_job`, `ingest_targets`,
`finalise_client`, `client_workflow`; lines 159-203 and 375-404) -/

/-- Embedding of `init_new_job` (shred.py lines 159-172): writes
`master=stage1init` and `data=stage1init` for the fresh job id. -/
def init_new_job (conf : Conf) (job_id : String) : List Event :=
  [set_status conf job_id "master" "stage1init",
   set_status conf job_id "data" "stage1init"]

/-- Embedding of `ingest_targets` (shred.py lines 175-193): writes
`master=stage1ingest` and `data=stage1ingest`, creates the data directory,
then renames the target into it.  A rename failure raises out of the
function (nothing is caught), leaving the preceding writes in place; on
success `data=stage1ingestComplete` is written and that status returned. -/
def ingest_targets (conf : Conf) (job_id target : String) (renameOk : Bool) :
    List Event × Except PyErr String :=
  let evs :=
    [set_status conf job_id "master" "stage1ingest",
     set_status conf job_id "data" "stage1ingest",
     Event.hdfsMakedirs (dataDirPath conf job_id)]
  if renameOk then
    (evs ++ [Event.hdfsRename target (dataDirPath conf job_id),
             set_status conf job_id "data" "stage1ingestComplete"],
     Except.ok "stage1ingestComplete")
  else (evs, Except.error PyErr.renameError)

/-- Embedding of the job-creating tail of `client_workflow` (lines 386-402):
`init_new_job`, then `ingest_targets`, then on success `finalise_client`
writing `master=stage1complete`.  No failure path performs any cleanup. -/
def client_ingest_pipeline (conf : Conf) (job_id target : String)
    (renameOk : Bool) : List Event × Except PyErr String :=
  let evs0 := init_new_job conf job_id
  let p := ingest_targets conf job_id target renameOk
  match p.2 with
  | Except.error e => (evs0 ++ p.1, Except.error e)
  | Except.ok st =>
    if st = "stage1ingestComplete" then
      (evs0 ++ p.1 ++ [set_status conf job_id "master" "stage1complete"],
       Except.ok "stage1complete")
    else (evs0 ++ p.1, Except.error PyErr.hdfsError)

/-- Embedding of the argparse `Namespace` produced by `parse_args` for
client mode (shred.py lines 51-74): attribute bindings by name.  The parser
declares `-f`/`--filename`, so the path is bound to attribute `filename`. -/
def parse_args (mode filename : String) : List (String × String) :=
  [("mode", mode), ("filename", filename)]

/-- Python attribute access on the argparse namespace: `none` is an
`AttributeError`. -/
def getattrN (ns : List (String × String)) (attr : String) : Option String :=
  lookupA attr ns

/-- Embedding of `check_hdfs_for_target` (shred.py lines 125-138): true iff
`hdfs.status(target, strict=False)` is non-null and its type is `FILE`. -/
def check_hdfs_for_target (hdfsType : String → Option String)
    (target : String) : Bool :=
  match hdfsType target with
  | some t => t = "FILE"
  | none => false

/-- Embedding of `client_workflow` (shred.py lines 375-404).  Line 378 reads
`passed_args.file_to_shred`, an attribute `parse_args` never binds, so the
access raises `AttributeError` before anything else happens; the remainder
(realpath canonicalisation, the HDFS file check gating job creation) is
embedded for the world in which the attribute were present. -/
def client_workflow (conf : Conf) (passed_args : List (String × String))
    (realpathF : String → String) (hdfsType : String → Option String)
    (job_id : String) (renameOk : Bool) : List Event × Except PyErr String :=
  match getattrN passed_args "file_to_shred" with
  | none => ([], Except.error PyErr.attributeError)
  | some f =>
    let target := realpathF f
    if check_hdfs_for_target hdfsType target then
      client_ingest_pipeline conf job_id target renameOk
    else ([], Except.error PyErr.hdfsError)

/-! ### Master-status write schedule for one job (claim C7)

A per-job history is the list of tokens written to the master status file
`{root}/jobs/{job_id}`, in write order.  The steps below are read off the
source: the client invocation (run at most once per job, since the job id is
a fresh uuid4) writes `stage1init`, `stage1ingest`, `stage1complete` in that
order and may stop after any prefix (lines 167, 180, 199);
`prepare_blocklists` writes `stage2prepareBlocklist` then `stage2copyblocks`
and may stop after any prefix (lines 306, 335), and is reached only for a
job whose master status file currently reads `stage1complete`
(`get_jobs_by_status('stage1complete')`, line 415); no other code in
src/shred.py writes to the master status file.  Agent invocations are taken
as atomic. -/

/-- Master tokens the client invocation writes, in order. -/
def clientMasterWrites : List String :=
  ["stage1init", "stage1ingest", "stage1complete"]

/-- Master tokens the discovery leader writes, in order. -/
def workerLeaderWrites : List String :=
  ["stage2prepareBlocklist", "stage2copyblocks"]

/-- All master tokens any code in src/shred.py can write, in program order. -/
def implementedMasterChain : List String :=
  clientMasterWrites ++ workerLeaderWrites

/-- The canonical master progression of spec section 3, quoted by claim C7. -/
def canonicalMasterChain : List String :=
  ["stage1init", "stage1ingest", "stage1ingestComplete", "stage1complete",
   "stage2prepareBlocklist", "stage2copyblocks", "stage2readyForDelete",
   "stage2filesDeleted", "stage2complete", "stage3shredding", "stage3complete"]

/-- One agent invocation acting on one job's master-status write history. -/
inductive MasterStep : List String → List String → Prop where
  | clientRun (k : Nat) : k ≤ 3 →
      MasterStep [] (clientMasterWrites.take k)
  | workerLeaderRun (h : List String) (k : Nat) : k ≤ 2 →
      h.getLast? = some "stage1complete" →
      MasterStep h (h ++ workerLeaderWrites.take k)
  | idle (h : List String) : MasterStep h h

/-- Histories reachable by a finite schedule of agent invocations. -/
inductive MasterReachable : List String → Prop where
  | init : MasterReachable []
  | step {h h' : List String} :
      MasterReachable h → MasterStep h h' → MasterReachable h'

/-- Collapse consecutive duplicates ("deduplicated, in order of write"). -/
def dedupConsec : List String → List String
  | [] => []
  | [a] => [a]
  | a :: b :: rest =>
    if a = b then dedupConsec (b :: rest) else a :: dedupConsec (b :: rest)

/-- Boolean prefix test on token lists. -/
def isPrefixB : List String → List String → Bool
  | [], _ => true
  | _ :: _, [] => false
  | a :: l, b :: m => a = b && isPrefixB l m

/-! ### Spec-modelled completion leader and shredder passes (claims C1, C2) -/

/-- Modelled from the spec: the completion leader pass, spec section 4.5
steps 3-5.  This code is missing from src/shred.py - lines 502-514 of
`worker_workflow` are only a comment sketch, and no executable completion
code exists under src/.  Once every worklist of the job reports every block
`linked`, the leader writes `master=stage2readyForDelete`, deletes
`{root}/store/{job}/data/` bypassing the trash, writes
`master=stage2filesDeleted`, then `master=stage2complete`, then
`master=stage3shredding`; otherwise it keeps waiting and writes nothing. -/
def completion_leader_check (conf : Conf) (job_id : String)
    (worklists : List (String × List (String × String))) : List Event :=
  if worklists.all (fun wl => wl.2.all (fun b => b.2 = "linked")) then
    [set_status conf job_id "master" "stage2readyForDelete",
     Event.hdfsDelete (dataDirPath conf job_id) true,
     set_status conf job_id "master" "stage2filesDeleted",
     set_status conf job_id "master" "stage2complete",
     set_status conf job_id "master" "stage3shredding"]
  else []

/-- The preserved hardlink path `{mount}/{shred_subdir}/{block_id}` the
shredder destroys (spec section 4.6 step 2). -/
def shredTargetPath (conf : Conf) (mountOf : String → String)
    (blk : String) : String :=
  ospathjoin (ospathjoin (mountOf blk) conf.LINUXFS_SHRED_PATH) blk

/-- Modelled from the spec: the per-entry loop of the shredder pass, spec
section 4.6 steps 1-3.  This code is missing from src/shred.py -
`shredder_workflow` (line 517) is `pass` followed by a comment sketch.  Each
entry in state `linked` is marked `shredding` and the worklist rewritten,
the shred primitive is invoked on the preserved hardlink path, then the
entry is marked `shredded` and the worklist rewritten; other entries are
untouched.  `done` accumulates the already-processed prefix. -/
def shredder_entries (conf : Conf) (self_id job_id : String)
    (mountOf : String → String) (done : List (String × String)) :
    List (String × String) → List (String × String) × List Event
  | [] => (done, [])
  | e :: rest =>
    if e.2 = "linked" then
      let wl1 := done ++ (e.1, "shredding") :: rest
      let wl2 := done ++ (e.1, "shredded") :: rest
      let q := shredder_entries conf self_id job_id mountOf
        (done ++ [(e.1, "shredded")]) rest
      (q.1,
       Event.hdfsWrite (worklistPath conf job_id self_id) (jsonDumps wl1) ::
       Event.shredCmd (shredTargetPath conf mountOf e.1) ::
       Event.hdfsWrite (worklistPath conf job_id self_id) (jsonDumps wl2) ::
       q.2)
    else
      let q := shredder_entries conf self_id job_id mountOf
        (done ++ [e]) rest
      (q.1, q.2)

/-- Modelled from the spec: one shredder-agent pass over its local worklist
for a job in master status `stage3shredding` (spec section 4.6): process the
entries, then, when every entry is `shredded`, write the per-worker status
file `{root}/store/{job}/{self_id}/status = stage3complete`. -/
def shredder_pass (conf : Conf) (self_id job_id : String)
    (mountOf : String → String) (wl : List (String × String)) :
    List (String × String) × List Event :=
  let p := shredder_entries conf self_id job_id mountOf [] wl
  if p.1.all (fun e => e.2 = "shredded") then
    (p.1, p.2 ++ [set_status conf job_id self_id "stage3complete"])
  else p

/-- Declarative per-entry effect of one shredder pass, used to state the
theorem for claim C2. -/
def shredTransform (e : String × String) : String × String :=
  (e.1, if e.2 = "linked" then "shredded" else e.2)

/-! ### Concrete fixture values used by witnesses and counterexamples -/

/-- A concrete configuration. -/
def conf0 : Conf :=
  { HDFS_SHRED_PATH := "/.shred", LINUXFS_SHRED_PATH := ".shred",
    ZOOKEEPER_PATH := "/shred/" }

/-- A concrete well-formed fsck report: a header line, one block line with
two replicas and trailing whitespace, and an indented summary line. -/
def fsckSample : List (List Char) :=
  ["FSCK started by root from /172.16.0.10 for path /u/alice/x".data,
   "0. BP-929597290-172.16.0.10-1495714324084:blk_1073839025_98301 len=134217728 repl=2 [DatanodeInfoWithStorage[172.16.0.80:50010,DS-xx,DISK], DatanodeInfoWithStorage[172.16.0.40:50010,DS-yy,DISK]]  ".data,
   " Total size: 134217728 B".data]

/-- True on DFS-delete events; used to state that a trace performs no
cleanup. -/
def isDeleteEvent : Event → Bool
  | Event.hdfsDelete _ _ => true
  | _ => false

/-- Block reports for a two-target job: each target has one block, both
blocks replicated on datanode 10.0.0.1, with distinct block ids. -/
def repCX : String → List (List Char) := fun t =>
  if t = "part-0" then
    ["0. B:blk_1073839025_98301 len=1 repl=1 [DatanodeInfoWithStorage[10.0.0.1:50010,DS-a,DISK]]".data]
  else
    ["0. B:blk_1073839026_98302 len=1 repl=1 [DatanodeInfoWithStorage[10.0.0.1:50010,DS-a,DISK]]".data]

/-- The parsed form of the reports in `repCX`. -/
def parsedCX : String → List (List Char × List (List Char)) := fun t =>
  if t = "part-0" then [("10.0.0.1".data, ["blk_1073839025".data])]
  else [("10.0.0.1".data, ["blk_1073839026".data])]

/-! ## Theorems -/

/-- Helper: the parser worker loop, on lines that are all well formed,
succeeds and folds each line's spec-side contribution into the accumulator. -/
theorem parseFsckAux_wf (lines : List (List Char)) :
    ∀ acc, (∀ l ∈ lines, lineWF l = true) →
    parseFsckAux acc lines =
      Except.ok (lines.foldl
        (fun a l => (lineContribution l).foldl (fun a p => alistAppend a p.1 p.2) a)
        acc) := by
  induction lines with
  | nil => intro acc _; rfl
  | cons l rest ih =>
    intro acc hwf
    have hl : lineWF l = true := hwf l (by simp)
    have hrest : ∀ l' ∈ rest, lineWF l' = true := fun l' h' => hwf l' (by simp [h'])
    match l with
    | [] => simp [lineWF] at hl
    | c :: tl =>
      cases hd : c.isDigit with
      | false =>
        have hstep : parseFsckAux acc ((c :: tl) :: rest) = parseFsckAux acc rest := by
          simp [parseFsckAux, hd]
        have hcontrib : lineContribution (c :: tl) = [] := by
          simp [lineContribution, digitLeading, hd]
        rw [hstep, ih _ hrest, List.foldl_cons, hcontrib]
        rfl
      | true =>
        cases hs : searchColonCapture (splitFirstBracket (c :: tl)).1 with
        | none =>
          cases hb : (splitFirstBracket (c :: tl)).2 <;>
            simp [lineWF, hd, hs, hb] at hl
        | some cap =>
          cases hb : (splitFirstBracket (c :: tl)).2 with
          | none => simp [lineWF, hd, hs, hb] at hl
          | some after =>
            have hstep : parseFsckAux acc ((c :: tl) :: rest)
                = parseFsckAux (((findallDNIS after).map takeBeforeColon).foldl
                    (fun a dn => alistAppend a dn (rpartitionHead '_' cap)) acc) rest := by
              simp [parseFsckAux, hd, hs, hb]
            have hcontrib : lineContribution (c :: tl)
                = ((findallDNIS after).map takeBeforeColon).map
                    (fun dn => (dn, rpartitionHead '_' cap)) := by
              simp [lineContribution, digitLeading, hd, hs, hb]
            rw [hstep, ih _ hrest, List.foldl_cons, hcontrib]
            simp [List.foldl_map]

/-- C10: on every well-formed block-location oracle report (every line
nonempty; block lines - the ones beginning with a digit - contain a `[`, a
colon capture before it, and an underscore in the capture), the parser
succeeds and returns exactly the mapping described by the spec: only lines
beginning with a digit contribute; the block id of such a line is the text
captured after `:` up to the following space with the part after its final
`_` removed; each replica datanode is the text before the first `:` of a
`DatanodeInfoWithStorage[...]` entry; all other lines (including ones with
leading or trailing whitespace) are skipped silently without error. -/
theorem c10_fsck_parser_meets_spec (lines : List (List Char))
    (hwf : ∀ l ∈ lines, lineWF l = true) :
    parse_blocks_from_fsck lines = Except.ok (blockReport_spec lines) :=
  parseFsckAux_wf lines [] hwf

/-- C10 witness: the parser applied to a concrete report with a header line,
a trailing-whitespace block line and an indented summary line. -/
theorem c10_witness :
    (∀ l ∈ fsckSample, lineWF l = true) ∧
    parse_blocks_from_fsck fsckSample = Except.ok (blockReport_spec fsckSample) :=
  ⟨by decide, c10_fsck_parser_meets_spec fsckSample (by decide)⟩

/-- C9: the claim fails on the code as a slip, not by design: `parse_args`
binds the client's path to the attribute `filename` (line 60), but
`client_workflow` reads `passed_args.file_to_shred` (line 378), so every
client invocation raises `AttributeError` before canonicalizing or checking
anything, and no run ever reaches the existing-file check. -/
theorem c9_client_always_attribute_error :
    ∀ (conf : Conf) (mode filename : String) (realpathF : String → String)
      (hdfsType : String → Option String) (job_id : String) (renameOk : Bool),
    client_workflow conf (parse_args mode filename) realpathF hdfsType job_id renameOk
      = ([], Except.error PyErr.attributeError) := by
  intro conf mode filename rp ht j ok
  rfl

/-- C3: the claim fails on the code: for a fresh `stage1complete` job whose
lease path has no ZooKeeper node yet (nobody has ever attempted the lease,
so acquisition would succeed), the worker performs no lease attempt and no
discovery action at all, because line 424 guards `prepare_blocklists` with
`zk.exists(...)` - the presence of the node - while its own comment on line
423 says the guard should be the absence of the node. -/
theorem c3_fresh_job_skipped_without_lease_attempt :
    worker_stage1_pass conf0 ["f7a1b2c3-d4e5-4f60-8a9b-0c1d2e3f4a5b"]
      (fun _ => false) (fun _ => true)
      (fun _ => ["/.shred/store/f7a1b2c3-d4e5-4f60-8a9b-0c1d2e3f4a5b/data/x"])
      (fun _ _ => fsckSample)
      = Except.ok [] := rfl

/-- C6: the claim fails on the code: for a `stage2copyblocks` job for which
this worker has no worklist file (the read raises `HdfsError`),
`this_job_blocklist` is the empty dict, not `None` (line 446, contradicting
the comment on line 456), so the `is not None` test admits the job and line
499 writes an empty worklist file `{}` at `{root}/store/{job}/{self_id}` -
creating a worklist file for a datanode that holds no replica, instead of
skipping the job without writing anything. -/
theorem c6_missing_worklist_file_still_written :
    worker_stage2_pass conf0 "10.0.0.9" ["e31c7a00-1c2d-4e5f-9a8b-7c6d5e4f3a2b"]
      (fun _ => none) (fun _ => []) (fun _ => true) (fun _ => true)
      = [Event.hdfsWrite "/.shred/store/e31c7a00-1c2d-4e5f-9a8b-7c6d5e4f3a2b/10.0.0.9" "\x7b\x7d"] := rfl

/-- C8 counterexample: with a failing rename (user lacks rename permission),
the concrete client run errors out, yet the master status file
`{root}/jobs/{J}` has been written (last with `stage1ingest`) and the trace
contains no delete: the job-store state is created and is not cleaned up,
so the claim "no job directory and no master status are left behind" is
false on the code. -/
theorem c8_counterexample :
    (client_ingest_pipeline conf0 "9d2c4e6f-1a3b-4c5d-8e7f-0a1b2c3d4e5f" "/u/alice/x" false).2
      = Except.error PyErr.renameError ∧
    Event.hdfsWrite "/.shred/jobs/9d2c4e6f-1a3b-4c5d-8e7f-0a1b2c3d4e5f" "stage1ingest"
      ∈ (client_ingest_pipeline conf0 "9d2c4e6f-1a3b-4c5d-8e7f-0a1b2c3d4e5f" "/u/alice/x" false).1 ∧
    (client_ingest_pipeline conf0 "9d2c4e6f-1a3b-4c5d-8e7f-0a1b2c3d4e5f" "/u/alice/x" false).1.all
      (fun e => !(isDeleteEvent e)) = true := by
  refine ⟨rfl, ?_, by decide⟩
  simp [client_ingest_pipeline, ingest_targets, init_new_job, set_status,
    masterStatusPath, dataStatusPath, dataDirPath, ospathjoin, conf0]

/-- C8 amended: when the rename fails, the client invocation fails with the
propagated error and leaves the partially created job behind for operator
review - master and data statuses written as `stage1init` then
`stage1ingest`, and the data directory created; no cleanup is performed. -/
theorem c8_amended :
    ∀ (conf : Conf) (job_id target : String),
    client_ingest_pipeline conf job_id target false =
      ([Event.hdfsWrite (masterStatusPath conf job_id) "stage1init",
        Event.hdfsWrite (dataStatusPath conf job_id) "stage1init",
        Event.hdfsWrite (masterStatusPath conf job_id) "stage1ingest",
        Event.hdfsWrite (dataStatusPath conf job_id) "stage1ingest",
        Event.hdfsMakedirs (dataDirPath conf job_id)],
       Except.error PyErr.renameError) := by
  intro conf j t
  rfl

/-- Helper: `lookupA` through a value-transforming map that keeps keys. -/
theorem lookupA_map_val {α β : Type} [DecidableEq α] (k : α) (f : α → β → β) :
    ∀ (l : List (α × β)),
    lookupA k (l.map (fun kv => (kv.1, f kv.1 kv.2))) = (lookupA k l).map (f k) := by
  intro l
  induction l with
  | nil => rfl
  | cons kv rest ih =>
    simp only [List.map_cons, lookupA]
    by_cases h : kv.1 = k
    · simp [h]
    · simp [h, ih]

/-- Helper: `lookupA` through an append tries the left list first. -/
theorem lookupA_append {α β : Type} [DecidableEq α] (k : α) :
    ∀ (l₁ l₂ : List (α × β)),
    lookupA k (l₁ ++ l₂)
      = (match lookupA k l₁ with
         | some v => some v
         | none => lookupA k l₂) := by
  intro l₁ l₂
  induction l₁ with
  | nil => rfl
  | cons kv rest ih =>
    simp only [List.cons_append, lookupA]
    by_cases h : kv.1 = k
    · simp [h]
    · simp [h, ih]

/-- Helper: filtering with a predicate that keeps every entry of key `k`
does not change the `lookupA` at `k`. -/
theorem lookupA_filter_keep {α β : Type} [DecidableEq α] (k : α)
    (p : α × β → Bool) (hp : ∀ v, p (k, v) = true) :
    ∀ (l : List (α × β)), lookupA k (l.filter p) = lookupA k l := by
  intro l
  induction l with
  | nil => rfl
  | cons kv rest ih =>
    by_cases hk : kv.1 = k
    · have : p kv = true := by
        have : kv = (k, kv.2) := by rw [← hk]
        rw [this]; exact hp kv.2
      simp [List.filter_cons, this, lookupA, hk, ih]
    · cases hkv : p kv <;> simp [List.filter_cons, hkv, lookupA, hk, ih]

/-- Helper: filtering with a predicate that drops every entry of key `k`
makes the `lookupA` at `k` fail. -/
theorem lookupA_filter_drop {α β : Type} [DecidableEq α] (k : α)
    (p : α × β → Bool) (hp : ∀ v, p (k, v) = false) :
    ∀ (l : List (α × β)), lookupA k (l.filter p) = none := by
  intro l
  induction l with
  | nil => rfl
  | cons kv rest ih =>
    by_cases hk : kv.1 = k
    · have : p kv = false := by
        have : kv = (k, kv.2) := by rw [← hk]
        rw [this]; exact hp kv.2
      simp [List.filter_cons, this, ih]
    · cases hkv : p kv <;> simp [List.filter_cons, hkv, lookupA, hk, ih]

/-- Helper: `dict.update` semantics at the level of lookups - the value from
`nw` wins when present, otherwise the old value survives. -/
theorem lookupA_dictUpdate (k : List Char)
    (old nw : List (List Char × List (List Char))) :
    lookupA k (dictUpdate old nw)
      = (match lookupA k nw with
         | some v => some v
         | none => lookupA k old) := by
  unfold dictUpdate
  rw [lookupA_append,
    lookupA_map_val k (fun a b => (lookupA a nw).getD b) old]
  cases ho : lookupA k old with
  | none =>
    have hkeep : ∀ v, (fun kv : List Char × List (List Char) =>
        (lookupA kv.1 old).isNone) (k, v) = true := by
      intro v; simp [ho]
    rw [lookupA_filter_keep k _ hkeep]
    cases hn : lookupA k nw <;> simp
  | some v0 =>
    cases hn : lookupA k nw <;> simp [ho, hn]

/-- Helper: lookups through the fold of `dict.update` over the targets. -/
theorem lookupA_aggregate (parsed : String → List (List Char × List (List Char)))
    (w : List Char) :
    ∀ (targets : List String) (init : List (List Char × List (List Char))),
    lookupA w (targets.foldl (fun a t => dictUpdate a (parsed t)) init)
      = targets.foldl
          (fun acc t =>
            match lookupA w (parsed t) with
            | some v => some v
            | none => acc)
          (lookupA w init) := by
  intro targets
  induction targets with
  | nil => intro init; rfl
  | cons t ts ih =>
    intro init
    rw [List.foldl_cons, List.foldl_cons, ih, lookupA_dictUpdate]

/-- Helper: the blocklist aggregation loop succeeds and computes the
`dict.update` fold when every report parses. -/
theorem build_blocklists_ok :
    ∀ (targets : List String) (report : String → List (List Char))
      (parsed : String → List (List Char × List (List Char))),
    (∀ t ∈ targets, parse_blocks_from_fsck (report t) = Except.ok (parsed t)) →
    build_blocklists targets report = Except.ok (aggregateBlocklists parsed targets) := by
  have gen : ∀ (report : String → List (List Char))
      (parsed : String → List (List Char × List (List Char)))
      (ts : List String),
      (∀ t ∈ ts, parse_blocks_from_fsck (report t) = Except.ok (parsed t)) →
      ∀ init, ts.foldlM
          (fun acc t => do
            let m ← parse_blocks_from_fsck (report t)
            pure (dictUpdate acc m))
          init
        = Except.ok (ts.foldl (fun a t => dictUpdate a (parsed t)) init) := by
    intro report parsed ts
    induction ts with
    | nil => intro _ init; rfl
    | cons t ts ih =>
      intro hp init
      have hrest : ∀ t' ∈ ts, parse_blocks_from_fsck (report t') = Except.ok (parsed t') :=
        fun t' h' => hp t' (by simp [h'])
      have h0 := hp t (by simp)
      simp only [List.foldlM]
      rw [h0]
      exact ih hrest (dictUpdate init (parsed t))
  intro targets report parsed hp
  exact gen report parsed targets hp []

/-- C4 counterexample: a job with two enumerated target files whose single
blocks both live on datanode 10.0.0.1.  The discovery leader writes the
statuses as claimed, but the worklist it writes for 10.0.0.1 holds only the
second target's block `blk_1073839026`: `blocklists.update(...)` on line 315
replaced the node's list, so `blk_1073839025` - a block of that node from
the first target - is missing, refuting "each of that node's block ids
(taken across all target files of the job)". -/
theorem c4_counterexample :
    parse_blocks_from_fsck (repCX "part-0")
      = Except.ok [("10.0.0.1".data, ["blk_1073839025".data])] ∧
    parse_blocks_from_fsck (repCX "part-1")
      = Except.ok [("10.0.0.1".data, ["blk_1073839026".data])] ∧
    prepare_blocklists conf0 "4a5b6c7d-0000-4111-8222-333344445555" true
        ["part-0", "part-1"] repCX
      = Except.ok ("success",
          [Event.leaseAttempt "/shred/4a5b6c7d-0000-4111-8222-333344445555",
           Event.hdfsWrite "/.shred/jobs/4a5b6c7d-0000-4111-8222-333344445555"
             "stage2prepareBlocklist",
           Event.hdfsWrite "/.shred/store/4a5b6c7d-0000-4111-8222-333344445555/10.0.0.1"
             "\x7b\"blk_1073839026\": \"new\"\x7d",
           Event.hdfsWrite "/.shred/jobs/4a5b6c7d-0000-4111-8222-333344445555"
             "stage2copyblocks"]) ∧
    ¬ ("blk_1073839025".data ∈ (["blk_1073839026".data] : List (List Char))) := by
  refine ⟨rfl, rfl, rfl, by decide⟩

/-- C4 amended: on a successful lease, the discovery leader writes
`master=stage2prepareBlocklist`, then one worklist per datanode key of the
aggregated blocklists mapping each listed block to `new`, then
`master=stage2copyblocks`; per datanode the aggregated block list is the one
from the last enumerated target file whose report lists that node (later
targets replace, not merge with, earlier ones; for a single-target job this
is all of the node's replica blocks). -/
theorem c4_amended :
    ∀ (conf : Conf) (job_id : String) (targets : List String)
      (report : String → List (List Char))
      (parsed : String → List (List Char × List (List Char))),
    (∀ t ∈ targets, parse_blocks_from_fsck (report t) = Except.ok (parsed t)) →
    (prepare_blocklists conf job_id true targets report
      = Except.ok ("success",
          Event.leaseAttempt (conf.ZOOKEEPER_PATH ++ job_id) ::
          set_status conf job_id "master" "stage2prepareBlocklist" ::
          ((aggregateBlocklists parsed targets).map (fun wkv =>
            Event.hdfsWrite (worklistPath conf job_id (String.mk wkv.1))
              (jsonDumps (wkv.2.map (fun b => (String.mk b, "new")))))
            ++ [set_status conf job_id "master" "stage2copyblocks"])))
      ∧ (∀ w, lookupA w (aggregateBlocklists parsed targets)
            = lastNodeReport parsed targets w) := by
  intro conf j targets report parsed hp
  constructor
  · have hb := build_blocklists_ok targets report parsed hp
    unfold prepare_blocklists
    rw [hb]
    rfl
  · intro w
    unfold aggregateBlocklists lastNodeReport
    rw [lookupA_aggregate]
    rfl

/-- C4 witness: the amended claim at a concrete single-target job. -/
theorem c4_witness :
    (∀ t ∈ ["part-0"], parse_blocks_from_fsck (repCX t) = Except.ok (parsedCX t)) ∧
    lookupA "10.0.0.1".data (aggregateBlocklists parsedCX ["part-0"])
      = lastNodeReport parsedCX ["part-0"] "10.0.0.1".data :=
  ⟨by intro t ht; simp only [List.mem_singleton] at ht; subst ht; rfl,
   (c4_amended conf0 "4a5b6c7d-0000-4111-8222-333344445555" ["part-0"] repCX parsedCX
     (by intro t ht; simp only [List.mem_singleton] at ht; subst ht; rfl)).2 "10.0.0.1".data⟩

/-- Helper: the state a block ends in after one processing step. -/
theorem process_block_fst :
    ∀ (conf : Conf) (blk st : String) (found : List (List String))
      (isMount : List String → Bool) (dirExists : String → Bool),
    (process_block conf blk st found isMount dirExists).1
      = blockNextState st found.length := by
  intro conf blk st found im de
  unfold process_block blockNextState
  by_cases h : st = "new"
  · by_cases h1 : found.length = 1 <;> simp [h, h1]
  · by_cases h2 : st = "linked" <;> simp [h, h2]

/-- C5 counterexample: a block already in state `finding`, with the block
file present exactly once on disk, is left in `finding` by the next pass -
it does not advance to `linking` as the claim states, because the
`if`/`elif` chain on lines 464-494 matches only `"new"` and `"linked"`. -/
theorem c5_counterexample :
    (process_block conf0 "blk_1073839025" "finding"
        [["data", "dfs", "blk_1073839025"]] (fun p => p.length == 1)
        (fun _ => false)).1 = "finding" ∧
    (process_block conf0 "blk_1073839025" "finding"
        [["data", "dfs", "blk_1073839025"]] (fun p => p.length == 1)
        (fun _ => false)).1 ≠ "linking" :=
  ⟨rfl, by decide⟩

/-- C5 amended: in the preserve pass each worklist entry is processed
independently: a block in `new` is searched for and ends `linked` on exactly
one filesystem hit - with a hardlink created from the found file into the
shred subdirectory of its containing mount point - and ends `finding` (with
an error logged) on zero or several hits; a block in any other state,
including `finding`, is left unchanged with no effects, so `finding` blocks
are never retried. -/
theorem c5_amended :
    ∀ (conf : Conf) (wl : List (String × String))
      (findRes : String → List (List String)) (isMount : List String → Bool)
      (dirExists : String → Bool),
    ((process_job_blocks conf wl findRes isMount dirExists).1
        = wl.map (fun bs => (bs.1, blockNextState bs.2 (findRes bs.1).length)))
    ∧ (∀ b f, (b, "new") ∈ wl → findRes b = [f] →
        Event.link (renderPath f)
          (ospathjoin (ospathjoin (renderPath (find_mount_point isMount f))
            conf.LINUXFS_SHRED_PATH) b)
          ∈ (process_job_blocks conf wl findRes isMount dirExists).2)
    ∧ (∀ (blk st : String) (found : List (List String)),
        st ≠ "new" → process_block conf blk st found isMount dirExists = (st, [])) := by
  intro conf wl findRes im de
  refine ⟨?_, ?_, ?_⟩
  · induction wl with
    | nil => rfl
    | cons bs rest ih =>
      simp only [process_job_blocks, List.map_cons]
      rw [process_block_fst, ih]
  · intro b f hmem hfind
    induction wl with
    | nil => simp at hmem
    | cons bs rest ih =>
      simp only [process_job_blocks]
      rcases List.mem_cons.mp hmem with h1 | h2
      · have hb1 : bs.1 = b := by rw [← h1]
        have hb2 : bs.2 = "new" := by rw [← h1]
        rw [List.mem_append]
        left
        rw [hb1, hb2]
        unfold process_block
        rw [hfind]
        simp
      · rw [List.mem_append]
        right
        exact ih h2
  · intro blk st found hst
    unfold process_block
    by_cases h2 : st = "linked" <;> simp [hst, h2]

/-- C5 witness: a single `new` block found at `/data/blk_1073839025` is
hardlinked into `/data/.shred/` (the mount point being `/data`). -/
theorem c5_witness :
    Event.link "/data/blk_1073839025" "/data/.shred/blk_1073839025"
      ∈ (process_job_blocks conf0 [("blk_1073839025", "new")]
          (fun _ => [["data", "blk_1073839025"]])
          (fun p => p.length == 1) (fun _ => false)).2 :=
  (c5_amended conf0 [("blk_1073839025", "new")]
      (fun _ => [["data", "blk_1073839025"]])
      (fun p => p.length == 1) (fun _ => false)).2.1
    "blk_1073839025" ["data", "blk_1073839025"] (by simp) rfl

/-- C1: spec-modelled - once every worklist of the job reports every block
`linked`, the completion leader writes `master=stage2readyForDelete`,
deletes `{root}/store/{job}/data/` bypassing the trash, writes
`master=stage2filesDeleted`, then `master=stage2complete`, then
`master=stage3shredding`, in that order.  (The pass is absent from
src/shred.py: lines 502-514 are a comment sketch, so the definition is
modelled from spec section 4.5.) -/
theorem c1_completion_leader_sequence :
    ∀ (conf : Conf) (job_id : String)
      (worklists : List (String × List (String × String))),
    (∀ wl ∈ worklists, ∀ b ∈ wl.2, b.2 = "linked") →
    completion_leader_check conf job_id worklists
      = [Event.hdfsWrite (masterStatusPath conf job_id) "stage2readyForDelete",
         Event.hdfsDelete (dataDirPath conf job_id) true,
         Event.hdfsWrite (masterStatusPath conf job_id) "stage2filesDeleted",
         Event.hdfsWrite (masterStatusPath conf job_id) "stage2complete",
         Event.hdfsWrite (masterStatusPath conf job_id) "stage3shredding"] := by
  intro conf j wls hall
  have hcond : wls.all (fun wl => wl.2.all (fun b => b.2 = "linked")) = true := by
    rw [List.all_eq_true]
    intro wl hwl
    rw [List.all_eq_true]
    intro b hb
    exact decide_eq_true (hall wl hwl b hb)
  unfold completion_leader_check
  rw [hcond]
  simp [set_status]

/-- C1 witness: the completion sequence at a concrete all-linked job. -/
theorem c1_witness :
    (∀ wl ∈ [("10.0.0.1", [("blk_1073839025", "linked")]),
             ("10.0.0.2", [("blk_1073839025", "linked")])],
      ∀ b ∈ wl.2, b.2 = "linked") ∧
    completion_leader_check conf0 "77e0a1b2-3c4d-4e5f-8601-234567890abc"
        [("10.0.0.1", [("blk_1073839025", "linked")]),
         ("10.0.0.2", [("blk_1073839025", "linked")])]
      = [Event.hdfsWrite "/.shred/jobs/77e0a1b2-3c4d-4e5f-8601-234567890abc"
           "stage2readyForDelete",
         Event.hdfsDelete "/.shred/store/77e0a1b2-3c4d-4e5f-8601-234567890abc/data" true,
         Event.hdfsWrite "/.shred/jobs/77e0a1b2-3c4d-4e5f-8601-234567890abc"
           "stage2filesDeleted",
         Event.hdfsWrite "/.shred/jobs/77e0a1b2-3c4d-4e5f-8601-234567890abc"
           "stage2complete",
         Event.hdfsWrite "/.shred/jobs/77e0a1b2-3c4d-4e5f-8601-234567890abc"
           "stage3shredding"] :=
  ⟨by decide,
   c1_completion_leader_sequence conf0 "77e0a1b2-3c4d-4e5f-8601-234567890abc"
     [("10.0.0.1", [("blk_1073839025", "linked")]),
      ("10.0.0.2", [("blk_1073839025", "linked")])] (by decide)⟩

/-- Helper: every schedule step only appends master writes. -/
theorem masterStep_extends : ∀ (h h' : List String), MasterStep h h' → h <+: h' := by
  intro h h' st
  cases st with
  | clientRun k hk => exact ⟨clientMasterWrites.take k, rfl⟩
  | workerLeaderRun h k hk hl => exact ⟨workerLeaderWrites.take k, rfl⟩
  | idle h => exact ⟨[], by simp⟩

/-- Helper: one schedule step keeps the history a prefix of the implemented
chain. -/
theorem masterStep_bounded : ∀ (a b : List String), MasterStep a b →
    a <+: implementedMasterChain → b <+: implementedMasterChain := by
  intro a b st hp
  cases st with
  | clientRun k hk =>
    refine ⟨clientMasterWrites.drop k ++ workerLeaderWrites, ?_⟩
    rw [← List.append_assoc, List.take_append_drop]
    rfl
  | workerLeaderRun hX k hk hl =>
    obtain ⟨t, ht⟩ := hp
    have hlen : a.length ≤ 5 := by
      have hl5 := congrArg List.length ht
      simp only [List.length_append] at hl5
      have hc : implementedMasterChain.length = 5 := by decide
      omega
    have hh2 : a = implementedMasterChain.take a.length := by
      rw [← ht, List.take_left]
    have h5 : a.length = 0 ∨ a.length = 1 ∨ a.length = 2 ∨ a.length = 3
        ∨ a.length = 4 ∨ a.length = 5 := by omega
    have hk3 : k = 0 ∨ k = 1 ∨ k = 2 := by omega
    rcases h5 with h5 | h5 | h5 | h5 | h5 | h5
    · rw [h5, show implementedMasterChain.take 0 = [] from rfl] at hh2
      subst hh2; simp at hl
    · rw [h5, show implementedMasterChain.take 1 = ["stage1init"] from rfl] at hh2
      subst hh2; exact absurd hl (by decide)
    · rw [h5, show implementedMasterChain.take 2
          = ["stage1init", "stage1ingest"] from rfl] at hh2
      subst hh2; exact absurd hl (by decide)
    · rw [h5, show implementedMasterChain.take 3
          = ["stage1init", "stage1ingest", "stage1complete"] from rfl] at hh2
      subst hh2
      rcases hk3 with hk3 | hk3 | hk3 <;> subst hk3
      · exact ⟨["stage2prepareBlocklist", "stage2copyblocks"], rfl⟩
      · exact ⟨["stage2copyblocks"], rfl⟩
      · exact ⟨[], by rw [List.append_nil]; rfl⟩
    · rw [h5, show implementedMasterChain.take 4
          = ["stage1init", "stage1ingest", "stage1complete",
             "stage2prepareBlocklist"] from rfl] at hh2
      subst hh2; exact absurd hl (by decide)
    · rw [h5, show implementedMasterChain.take 5
          = ["stage1init", "stage1ingest", "stage1complete",
             "stage2prepareBlocklist", "stage2copyblocks"] from rfl] at hh2
      subst hh2; exact absurd hl (by decide)
  | idle hX => exact hp

/-- Helper: every reachable history is a prefix of the five master tokens
the source can write. -/
theorem masterReachable_bounded :
    ∀ {h : List String}, MasterReachable h → h <+: implementedMasterChain := by
  intro h r
  induction r with
  | init => exact ⟨implementedMasterChain, rfl⟩
  | step rprev stp ih => exact masterStep_bounded _ _ stp ih

/-- Helper: collapsing consecutive duplicates does nothing to a
duplicate-free list. -/
theorem dedupConsec_of_nodup : ∀ (l : List String), l.Nodup → dedupConsec l = l := by
  intro l
  induction l with
  | nil => intro _; rfl
  | cons a tl ih =>
    intro hnd
    match tl with
    | [] => rfl
    | b :: rest =>
      have hab : a ≠ b := by
        have := List.nodup_cons.mp hnd
        intro hab
        exact this.1 (by rw [hab]; exact List.mem_cons_self b rest)
      have htl : (b :: rest).Nodup := (List.nodup_cons.mp hnd).2
      simp only [dedupConsec, if_neg hab]
      rw [ih htl]

/-- C7 counterexample: a schedule consisting of one complete client
invocation yields the deduplicated master sequence
`[stage1init, stage1ingest, stage1complete]`, which is not a prefix of the
canonical progression - the code never writes `master=stage1ingestComplete`
(line 191 writes it to the `data` component only), so the canonical chain's
third token is skipped. -/
theorem c7_counterexample :
    MasterReachable ["stage1init", "stage1ingest", "stage1complete"]
    ∧ ¬ (dedupConsec ["stage1init", "stage1ingest", "stage1complete"]
          <+: canonicalMasterChain) := by
  constructor
  · have h3 : MasterStep [] (clientMasterWrites.take 3) :=
      MasterStep.clientRun 3 (by omega)
    have heq : clientMasterWrites.take 3
        = ["stage1init", "stage1ingest", "stage1complete"] := rfl
    exact MasterReachable.step MasterReachable.init (heq ▸ h3)
  · intro hp
    obtain ⟨t, ht⟩ := hp
    simp [canonicalMasterChain, dedupConsec] at ht

/-- C7 amended: across any finite schedule of (atomic) client, worker and
shredder invocations, the deduplicated master-status write sequence of a
job is a prefix of `[stage1init, stage1ingest, stage1complete,
stage2prepareBlocklist, stage2copyblocks]` - the subsequence of the
canonical progression that the source actually writes
(`stage1ingestComplete` goes only to the data component, and the stages
beyond `stage2copyblocks` are unimplemented) - and the master status never
moves backwards: every step appends. -/
theorem c7_amended :
    (∀ h : List String, MasterReachable h →
      dedupConsec h <+: implementedMasterChain)
    ∧ (∀ h h' : List String, MasterStep h h' → h <+: h') := by
  constructor
  · intro h r
    have hp := masterReachable_bounded r
    have hnd : h.Nodup := by
      obtain ⟨t, ht⟩ := hp
      have hchain : implementedMasterChain.Nodup := by decide
      rw [← ht] at hchain
      exact List.Nodup.of_append_left hchain
    rw [dedupConsec_of_nodup h hnd]
    exact hp
  · exact masterStep_extends

/-- C7 witness: the amended claim at the reachable history left by a full
client run followed by a full discovery-leader run. -/
theorem c7_witness :
    MasterReachable ["stage1init", "stage1ingest", "stage1complete",
      "stage2prepareBlocklist", "stage2copyblocks"]
    ∧ dedupConsec ["stage1init", "stage1ingest", "stage1complete",
        "stage2prepareBlocklist", "stage2copyblocks"] <+: implementedMasterChain := by
  have hr : MasterReachable ["stage1init", "stage1ingest", "stage1complete",
      "stage2prepareBlocklist", "stage2copyblocks"] := by
    have hc : MasterStep [] (clientMasterWrites.take 3) :=
      MasterStep.clientRun 3 (by omega)
    have heqc : clientMasterWrites.take 3
        = ["stage1init", "stage1ingest", "stage1complete"] := rfl
    have hstep1 : MasterReachable ["stage1init", "stage1ingest", "stage1complete"] :=
      MasterReachable.step MasterReachable.init (heqc ▸ hc)
    have hw : MasterStep ["stage1init", "stage1ingest", "stage1complete"]
        (["stage1init", "stage1ingest", "stage1complete"] ++ workerLeaderWrites.take 2) :=
      MasterStep.workerLeaderRun _ 2 (by omega) rfl
    have heqw : ["stage1init", "stage1ingest", "stage1complete"] ++ workerLeaderWrites.take 2
        = ["stage1init", "stage1ingest", "stage1complete",
           "stage2prepareBlocklist", "stage2copyblocks"] := rfl
    exact MasterReachable.step hstep1 (heqw ▸ hw)
  exact ⟨hr, c7_amended.1 _ hr⟩

/-- Helper: the worklist the shredder entry loop ends with - every `linked`
entry became `shredded`, everything else untouched. -/
theorem shredder_entries_fst (conf : Conf) (sid j : String)
    (mnt : String → String) :
    ∀ (todo done : List (String × String)),
    (shredder_entries conf sid j mnt done todo).1 = done ++ todo.map shredTransform := by
  intro todo
  induction todo with
  | nil => intro done; simp [shredder_entries]
  | cons e rest ih =>
    intro done
    unfold shredder_entries
    by_cases he : e.2 = "linked"
    · simp only [he, ite_true, ih]
      simp [shredTransform, he]
    · simp only [he, ite_false, ih]
      simp [shredTransform, he]

/-- Helper: the entry loop shreds the hardlink path of every `linked`
entry. -/
theorem shredder_entries_shreds (conf : Conf) (sid j : String)
    (mnt : String → String) :
    ∀ (todo done : List (String × String)) (b : String),
    (b, "linked") ∈ todo →
    Event.shredCmd (shredTargetPath conf mnt b)
      ∈ (shredder_entries conf sid j mnt done todo).2 := by
  intro todo
  induction todo with
  | nil => intro done b h; simp at h
  | cons e rest ih =>
    intro done b h
    unfold shredder_entries
    rcases List.mem_cons.mp h with h1 | h2
    · have he : e.2 = "linked" := by rw [← h1]
      have hb : e.1 = b := by rw [← h1]
      simp [he, hb]
    · by_cases he : e.2 = "linked"
      · simp only [he, ite_true, List.mem_cons]
        right; right; right
        exact ih _ b h2
      · simp only [he, ite_false]
        exact ih _ b h2

/-- Helper: every shred the entry loop performs comes from a `linked`
entry's hardlink path. -/
theorem shredder_entries_shreds_src (conf : Conf) (sid j : String)
    (mnt : String → String) :
    ∀ (todo done : List (String × String)) (p : String),
    Event.shredCmd p ∈ (shredder_entries conf sid j mnt done todo).2 →
    ∃ b, (b, "linked") ∈ todo ∧ p = shredTargetPath conf mnt b := by
  intro todo
  induction todo with
  | nil => intro done p h; simp [shredder_entries] at h
  | cons e rest ih =>
    intro done p h
    unfold shredder_entries at h
    by_cases he : e.2 = "linked"
    · simp only [he, ite_true, List.mem_cons] at h
      rcases h with h | h | h | h
      · simp at h
      · simp only [Event.shredCmd.injEq] at h
        refine ⟨e.1, ?_, h⟩
        rw [List.mem_cons]
        left
        rw [← he]
      · simp at h
      · obtain ⟨b, hb, hp⟩ := ih _ p h
        exact ⟨b, List.mem_cons.mpr (Or.inr hb), hp⟩
    · simp only [he, ite_false] at h
      obtain ⟨b, hb, hp⟩ := ih _ p h
      exact ⟨b, List.mem_cons.mpr (Or.inr hb), hp⟩

/-- Helper: for every `linked` entry the loop rewrites the worklist once
with the entry marked `shredding` and once with it marked `shredded`. -/
theorem shredder_entries_marks (conf : Conf) (sid j : String)
    (mnt : String → String) :
    ∀ (todo done : List (String × String)) (b : String),
    (b, "linked") ∈ todo →
    (∃ m1, Event.hdfsWrite (worklistPath conf j sid) (jsonDumps m1)
        ∈ (shredder_entries conf sid j mnt done todo).2 ∧ (b, "shredding") ∈ m1)
    ∧ (∃ m2, Event.hdfsWrite (worklistPath conf j sid) (jsonDumps m2)
        ∈ (shredder_entries conf sid j mnt done todo).2 ∧ (b, "shredded") ∈ m2) := by
  intro todo
  induction todo with
  | nil => intro done b h; simp at h
  | cons e rest ih =>
    intro done b h
    unfold shredder_entries
    rcases List.mem_cons.mp h with h1 | h2
    · have he : e.2 = "linked" := by rw [← h1]
      have hb : e.1 = b := by rw [← h1]
      constructor
      · refine ⟨done ++ (e.1, "shredding") :: rest, ?_, ?_⟩
        · simp [he]
        · rw [hb]; simp
      · refine ⟨done ++ (e.1, "shredded") :: rest, ?_, ?_⟩
        · simp [he]
        · rw [hb]; simp
    · by_cases he : e.2 = "linked"
      · obtain ⟨⟨m1, hm1, hb1⟩, ⟨m2, hm2, hb2⟩⟩ := ih (done ++ [(e.1, "shredded")]) b h2
        constructor
        · exact ⟨m1, by
            simp only [he, ite_true, List.mem_cons]
            right; right; right; exact hm1, hb1⟩
        · exact ⟨m2, by
            simp only [he, ite_true, List.mem_cons]
            right; right; right; exact hm2, hb2⟩
      · obtain ⟨⟨m1, hm1, hb1⟩, ⟨m2, hm2, hb2⟩⟩ := ih (done ++ [e]) b h2
        constructor
        · exact ⟨m1, by simp [he]; exact hm1, hb1⟩
        · exact ⟨m2, by simp [he]; exact hm2, hb2⟩

/-- C2: spec-modelled - on a `stage3shredding` job, one shredder pass over
the local worklist (i) turns exactly the `linked` entries into `shredded`,
leaving all others unchanged, and appends the per-worker status write
`{root}/store/{job}/{self_id}/status = stage3complete` exactly when the
resulting worklist is all-`shredded`; (ii) invokes the shred primitive on
the preserved hardlink path of every `linked` entry and of nothing else;
and (iii) for every `linked` entry rewrites the worklist once with that
entry marked `shredding` and once with it marked `shredded`.  (The pass is
absent from src/shred.py: `shredder_workflow` on line 517 is `pass` with a
comment sketch, so the definition is modelled from spec section 4.6.) -/
theorem c2_shredder_pass_spec :
    ∀ (conf : Conf) (self_id job_id : String) (mountOf : String → String)
      (wl : List (String × String)),
    (shredder_pass conf self_id job_id mountOf wl
      = (wl.map shredTransform,
         (shredder_entries conf self_id job_id mountOf [] wl).2 ++
           (if (wl.map shredTransform).all (fun e => e.2 = "shredded")
            then [set_status conf job_id self_id "stage3complete"]
            else [])))
    ∧ (∀ b, (b, "linked") ∈ wl →
        Event.shredCmd (shredTargetPath conf mountOf b)
          ∈ (shredder_pass conf self_id job_id mountOf wl).2)
    ∧ (∀ p, Event.shredCmd p ∈ (shredder_pass conf self_id job_id mountOf wl).2 →
        ∃ b, (b, "linked") ∈ wl ∧ p = shredTargetPath conf mountOf b)
    ∧ (∀ b, (b, "linked") ∈ wl →
        (∃ m1, Event.hdfsWrite (worklistPath conf job_id self_id) (jsonDumps m1)
            ∈ (shredder_pass conf self_id job_id mountOf wl).2 ∧ (b, "shredding") ∈ m1)
        ∧ (∃ m2, Event.hdfsWrite (worklistPath conf job_id self_id) (jsonDumps m2)
            ∈ (shredder_pass conf self_id job_id mountOf wl).2 ∧ (b, "shredded") ∈ m2)) := by
  intro conf sid j mnt wl
  have hfst : (shredder_entries conf sid j mnt [] wl).1 = wl.map shredTransform := by
    rw [shredder_entries_fst]; rfl
  have hpass : shredder_pass conf sid j mnt wl
      = (wl.map shredTransform,
         (shredder_entries conf sid j mnt [] wl).2 ++
           (if (wl.map shredTransform).all (fun e => e.2 = "shredded")
            then [set_status conf j sid "stage3complete"]
            else [])) := by
    simp only [shredder_pass]
    rw [hfst]
    cases hc : (wl.map shredTransform).all (fun e => e.2 = "shredded") with
    | true => simp
    | false => simp [← hfst]
  refine ⟨hpass, ?_, ?_, ?_⟩
  · intro b hb
    rw [hpass]
    exact List.mem_append_left _ (shredder_entries_shreds conf sid j mnt wl [] b hb)
  · intro p hp
    rw [hpass] at hp
    rcases List.mem_append.mp hp with hp | hp
    · exact shredder_entries_shreds_src conf sid j mnt wl [] p hp
    · exfalso
      by_cases hc : (wl.map shredTransform).all (fun e => e.2 = "shredded") = true
      · rw [if_pos hc, List.mem_singleton] at hp
        unfold set_status at hp
        split at hp
        · simp at hp
        · split at hp <;> simp at hp
      · rw [if_neg hc] at hp
        simp at hp
  · intro b hb
    obtain ⟨⟨m1, hm1, hb1⟩, ⟨m2, hm2, hb2⟩⟩ :=
      shredder_entries_marks conf sid j mnt wl [] b hb
    rw [hpass]
    exact ⟨⟨m1, List.mem_append_left _ hm1, hb1⟩,
           ⟨m2, List.mem_append_left _ hm2, hb2⟩⟩

/-- C2 witness: the spec-modelled shredder pass at a concrete worklist with
one linked block, whose preserved hardlink lives under `/data/.shred/`. -/
theorem c2_witness :
    Event.shredCmd "/data/.shred/blk_1073839025"
      ∈ (shredder_pass conf0 "10.0.0.1" "2f3e4d5c-6b7a-4980-9102-aabbccddeeff"
          (fun _ => "/data") [("blk_1073839025", "linked")]).2 :=
  (c2_shredder_pass_spec conf0 "10.0.0.1" "2f3e4d5c-6b7a-4980-9102-aabbccddeeff"
      (fun _ => "/data") [("blk_1073839025", "linked")]).2.1
    "blk_1073839025" (by simp)

end HdfsShred
